import Mathlib

/-!
Verification of the reactivity core of the repository (Vue 3.2.37 study fork).

The development shallowly embeds the dependency-tracking engine:

* `src/unnamed/part_000` (dep.ts): `Dep` with the `w`/`n` bitmask markers,
  `wasTracked`, `newTracked`, `initDepMarkers`, `finalizeDepMarkers`;
* `src/unnamed/part_001` (computed.ts + effect.ts): `ReactiveEffect.run`,
  `trackEffects`, `cleanupEffect`, `trigger` / `triggerEffects` /
  `triggerEffect`, `ComputedRefImpl`;
* `src/unnamed/part_002` (ref.ts): `RefImpl.set value`, `proxyRefs`;
* `src/packages/reactivity/src/baseHandlers.ts`: `readonlyHandlers`.

JavaScript `Set`s are embedded as duplicate-free lists in insertion order
(`Set.add` appends when absent, `Set.delete` filters).  The global stores
(`targetMap` keyed maps, the per-effect `deps` arrays) are embedded as total
functions from numeric identifiers.  A single run of an effect body is
abstracted by the list of dep identifiers on which `trackEffects` is invoked
during the run, which is exactly how the source interacts with `fn`.
-/

namespace Vue

/-- Effect identity (object identity of a `ReactiveEffect` in the source). -/
abbrev EffectId := Nat

/-- Dep identity (object identity of a `Dep` set in the source). -/
abbrev DepId := Nat

/-- Embedding of `Dep` (src/unnamed/part_000, lines 3-27): a JS `Set` of
subscribed effects (kept as a duplicate-free list in insertion order) plus the
two bitmask fields `w` (wasTracked) and `n` (newTracked). -/
structure Dep where
  effects : List EffectId
  w : Nat
  n : Nat
deriving Repr, DecidableEq

/-- JS `Set.prototype.add`: append the element when absent, keep insertion
order otherwise. -/
def setAdd (e : EffectId) (l : List EffectId) : List EffectId :=
  if e ∈ l then l else l ++ [e]

/-- JS `Set.prototype.delete`: remove the element, preserving the order of the
remaining elements. -/
def setDelete (e : EffectId) (l : List EffectId) : List EffectId :=
  l.filter (fun x => x ≠ e)

/-- Embeds `wasTracked` (src/unnamed/part_000, line 29): `(dep.w & trackOpBit) > 0`,
with the track bit passed explicitly. -/
def wasTracked (dep : Dep) (b : Nat) : Bool :=
  decide (0 < dep.w &&& b)

/-- Embeds `newTracked` (src/unnamed/part_000, line 31): `(dep.n & trackOpBit) > 0`. -/
def newTracked (dep : Dep) (b : Nat) : Bool :=
  decide (0 < dep.n &&& b)

/-- Embeds `x &= ~b` on Nat: clear in `x` every bit that is set in `b`
(src/unnamed/part_000, lines 57-58). -/
def clearBit (x b : Nat) : Nat := x ^^^ (x &&& b)

/-- The tracking-graph state: for every dep its `Dep` record, and for every
effect its `deps` array (the list of dep ids it currently subscribes to). -/
structure RSt where
  depOf : DepId → Dep
  edepsOf : EffectId → List DepId

/-- Replace the record of one dep. -/
def updDep (s : RSt) (d : DepId) (dp : Dep) : RSt :=
  { s with depOf := Function.update s.depOf d dp }

/-- Replace the `deps` array of one effect. -/
def setEdeps (s : RSt) (e : EffectId) (l : List DepId) : RSt :=
  { s with edepsOf := Function.update s.edepsOf e l }

/-- One iteration of the `initDepMarkers` loop (src/unnamed/part_000,
lines 34-40): `deps[i].w |= trackOpBit`. -/
def initStep (b : Nat) (s : RSt) (d : DepId) : RSt :=
  updDep s d { s.depOf d with w := (s.depOf d).w ||| b }

/-- Embeds `initDepMarkers` (src/unnamed/part_000, lines 34-40): mark every dep of the
effect as tracked-in-the-previous-pass at bit `b` (the current `trackOpBit`). -/
def initDepMarkers (e : EffectId) (b : Nat) (s : RSt) : RSt :=
  (s.edepsOf e).foldl (initStep b) s

/-- Embeds `trackEffects` (src/unnamed/part_001, lines 372-401) for active effect `e`
and `trackOpBit = b`.  `deep = true` is the full-cleanup branch taken when
`effectTrackDepth > maxMarkerBits` (`shouldTrack = !dep.has(activeEffect)`);
`deep = false` is the bitmask branch: when `!newTracked(dep)` set `dep.n |= b`
and track exactly when `!wasTracked(dep)`.  Tracking adds `e` to the dep's
effect set and pushes the dep onto `e.deps`. -/
def trackEffects (e : EffectId) (b : Nat) (deep : Bool) (d : DepId) (s : RSt) : RSt :=
  if deep then
    if e ∈ (s.depOf d).effects then s
    else
      setEdeps (updDep s d { s.depOf d with effects := setAdd e (s.depOf d).effects }) e
        (s.edepsOf e ++ [d])
  else
    if newTracked (s.depOf d) b then s
    else
      if wasTracked (s.depOf d) b then
        updDep s d { s.depOf d with n := (s.depOf d).n ||| b }
      else
        setEdeps
          (updDep s d
            { s.depOf d with
              n := (s.depOf d).n ||| b
              effects := setAdd e (s.depOf d).effects })
          e (s.edepsOf e ++ [d])

/-- The removal condition of the `finalizeDepMarkers` loop
(src/unnamed/part_000, line 49): `wasTracked(dep) && !newTracked(dep)`. -/
def killQ (dp : Dep) (b : Nat) : Bool :=
  wasTracked dp b && !(newTracked dp b)

/-- What one `finalizeDepMarkers` iteration does to the dep being visited:
delete the effect when `wasTracked && !newTracked`, then clear both marker bits
(src/unnamed/part_000, lines 46-58). -/
def finOne (e : EffectId) (b : Nat) (dp : Dep) : Dep :=
  let dp1 := if killQ dp b then { dp with effects := setDelete e dp.effects } else dp
  { dp1 with w := clearBit dp1.w b, n := clearBit dp1.n b }

/-- One iteration of the `finalizeDepMarkers` loop, carrying the compaction
write pointer as the list of kept deps (`deps[ptr++] = dep`). -/
def finStep (e : EffectId) (b : Nat) (acc : RSt × List DepId) (d : DepId) : RSt × List DepId :=
  (updDep acc.1 d (finOne e b (acc.1.depOf d)),
    if killQ (acc.1.depOf d) b then acc.2 else acc.2 ++ [d])

/-- Embeds `finalizeDepMarkers` (src/unnamed/part_000, lines 42-62): scan the
effect's `deps`, drop the effect from every dep with `wasTracked && !newTracked`,
clear the marker bits of every visited dep, and truncate `deps` to the kept
entries (`deps.length = ptr`). -/
def finalizeDepMarkers (e : EffectId) (b : Nat) (s : RSt) : RSt :=
  setEdeps ((s.edepsOf e).foldl (finStep e b) (s, [])).1 e
    ((s.edepsOf e).foldl (finStep e b) (s, [])).2

/-- One iteration of the `cleanupEffect` loop (src/unnamed/part_001,
lines 270-278): `deps[i].delete(effect)`. -/
def cleanupStep (e : EffectId) (s : RSt) (d : DepId) : RSt :=
  updDep s d { s.depOf d with effects := setDelete e (s.depOf d).effects }

/-- Embeds `cleanupEffect` (src/unnamed/part_001, lines 270-278): remove the effect
from every dep in its `deps` array, then clear the array (`deps.length = 0`). -/
def cleanupEffect (e : EffectId) (s : RSt) : RSt :=
  setEdeps ((s.edepsOf e).foldl (cleanupStep e) s) e []

/-- One tracked run of an effect in the bitmask mode
(`ReactiveEffect.run`, src/unnamed/part_001, lines 205-250, with
`effectTrackDepth <= maxMarkerBits`): `initDepMarkers`, then the body, which
invokes `trackEffects` once per observed read (`reads` is the sequence of dep
ids read), then `finalizeDepMarkers` in the `finally` block. -/
def runPass (e : EffectId) (b : Nat) (reads : List DepId) (s : RSt) : RSt :=
  finalizeDepMarkers e b
    (reads.foldl (fun s2 d => trackEffects e b false d s2) (initDepMarkers e b s))

/-- The guard of `triggerEffect` (src/unnamed/part_001, line 545):
`effect !== activeEffect || effect.allowRecurse`. -/
def firesB (allowRecurse : EffectId → Bool) (act : Option EffectId) (e : EffectId) : Bool :=
  if act = some e then allowRecurse e else true

/-- Embeds `triggerEffects` (src/unnamed/part_001, lines 521-539) as the sequence of
effects actually fired (scheduler or `run` invoked), in firing order: first the
pass over effects with `effect.computed` set, then the pass over the rest; each
firing is guarded by `firesB` (the `triggerEffect` self-recursion guard). -/
def triggerEffectsFired (effects : List EffectId) (isComputed allowRecurse : EffectId → Bool)
    (act : Option EffectId) : List EffectId :=
  effects.filter (fun e => isComputed e && firesB allowRecurse act e)
    ++ effects.filter (fun e => !isComputed e && firesB allowRecurse act e)

/-- Invariant 2 of the spec (§3, §8): for every dep `d` and effect `e`,
`e ∈ d.effects ⇔ d ∈ e.deps`. -/
def InvAll (s : RSt) : Prop :=
  ∀ (d : DepId) (e : EffectId), d ∈ s.edepsOf e ↔ e ∈ (s.depOf d).effects

/-- Intermediate invariant of a tracking pass of effect `e` at bit `b`:
`st` is the state on entry to `run` (all marker bits clear), `s` the state
after `initDepMarkers` and some prefix of the body's `trackEffects` calls,
and `nw` the deps newly pushed onto `e.deps` so far. -/
structure TrackInv (e : EffectId) (b : Nat) (st s : RSt) (nw : List DepId) : Prop where
  wChar : ∀ d, (s.depOf d).w = if d ∈ st.edepsOf e then b else 0
  nVals : ∀ d, (s.depOf d).n = b ∨ (s.depOf d).n = 0
  eSplit : s.edepsOf e = st.edepsOf e ++ nw
  nwNodup : nw.Nodup
  nwFresh : ∀ d, d ∈ nw → d ∉ st.edepsOf e
  nwN : ∀ d, d ∈ nw → (s.depOf d).n = b
  nScan : ∀ d, (s.depOf d).n = b → d ∈ st.edepsOf e ∨ d ∈ nw
  eMem : ∀ d, e ∈ (s.depOf d).effects ↔ (d ∈ st.edepsOf e ∨ d ∈ nw)
  othersE : ∀ d e2, e2 ≠ e → (e2 ∈ (s.depOf d).effects ↔ e2 ∈ (st.depOf d).effects)
  othersD : ∀ e2, e2 ≠ e → s.edepsOf e2 = st.edepsOf e2

/-- The `while (parent)` self-search of `ReactiveEffect.run`
(src/unnamed/part_001, lines 211-219): walk the `parent` chain starting at the
current `activeEffect`, reporting whether the effect being run occurs in it.
`fuel` bounds the walk (the chain is finite in the source since it mirrors the
synchronous call stack). -/
def selfInChain (parentOf : Nat → Option Nat) (self : Nat) : Option Nat → Nat → Bool
  | none, _ => false
  | some _, 0 => false
  | some p, fuel + 1 =>
    (p == self) || selfInChain parentOf self (parentOf p) fuel

/-- Observable outcome of `ReactiveEffect.run` (src/unnamed/part_001,
lines 205-250): whether `fn` was invoked and whether the tracked path
(parent push, marker init/finalize) was taken. -/
structure RunResult where
  fnInvoked : Bool
  tracked : Bool
deriving Repr, DecidableEq

/-- Control flow of `ReactiveEffect.run`: `if (!this.active) return this.fn()`
(fn invoked, untracked); else if the effect occurs in the parent chain, return
immediately (fn not invoked); else run `fn` under tracking. -/
def runBehavior (active selfIn : Bool) : RunResult :=
  if !active then ⟨true, false⟩
  else if selfIn then ⟨false, false⟩
  else ⟨true, true⟩

/-- Concrete parent store for the C4 counterexample: effect 1 (the current
`activeEffect`) has parent effect 0; effect 0 has been stopped
(`active = false`) by a descendant and its runner is then invoked. -/
def ceParent : Nat → Option Nat := fun p => if p = 1 then some 0 else none

/-- Concrete parent store for the C4 witness: `activeEffect` is effect 7
itself, re-running itself. -/
def cePw : Nat → Option Nat := fun _ => none

/-- State of a `ComputedRefImpl` (src/unnamed/part_001, lines 27-76):
`_dirty`, `_cacheable`, the cached `_value` (absent until first computed), and
an instrumentation counter of user-getter invocations (each `effect.run()` of
a computed invokes the getter exactly once, tracked or not). -/
structure ComputedState where
  dirty : Bool
  cacheable : Bool
  cached : Option Int
  getterCalls : Nat
deriving Repr, DecidableEq

/-- The `ComputedRefImpl` constructor (src/unnamed/part_001, lines 40-58):
`_dirty = true`, `_cacheable = !isSSR`, the getter is not invoked. -/
def mkComputedState (isSSR : Bool) : ComputedState :=
  { dirty := true, cacheable := !isSSR, cached := none, getterCalls := 0 }

/-- Embeds `ComputedRefImpl.get value` (src/unnamed/part_001, lines 60-71) with the
underlying dependencies unchanged, so the getter computes the same value `g`:
`if (self._dirty || !self._cacheable) { self._dirty = false; self._value =
self.effect.run() }`.  (`trackRefValue` only touches the output dep and is
irrelevant to the fields modelled here.) -/
def computedRead (g : Int) (st : ComputedState) : ComputedState :=
  if st.dirty || !st.cacheable then
    { st with dirty := false, cached := some g, getterCalls := st.getterCalls + 1 }
  else st

/-- The computed's scheduler (src/unnamed/part_001, lines 46-54): on an
underlying change, `if (!this._dirty) { this._dirty = true;
triggerRefValue(this) }`.  The Bool records whether the output dep was
triggered. -/
def computedSchedulerFire (st : ComputedState) : ComputedState × Bool :=
  if !st.dirty then ({ st with dirty := true }, true) else (st, false)

/-- A small universe of JavaScript values closed under the operations the ref
setter needs.  `Object.is` equality is structural equality here: `nan` is a
single value equal to itself (`Object.is(NaN, NaN)` is true); the signed-zero
distinction of `Object.is` is not represented (`num 0` is a single value). -/
inductive JSVal where
  | num (i : Int)
  | nan
  | str (s : String)
  | obj (id : Nat)
deriving Repr, DecidableEq

/-- Modelled from the spec: `hasChanged` of `@vue/shared` is not under `src/`;
per spec §4.3/§4.4 the identity comparison is `!Object.is(value, oldValue)`,
i.e. "same value or both NaN" — structural disequality on `JSVal`. -/
def hasChanged (a b : JSVal) : Bool := !(a == b)

/-- Fields of `RefImpl` relevant to the setter (src/unnamed/part_002,
lines 106-139): `_rawValue`, `_value` (called `val` here), `__v_isShallow`. -/
structure RefState where
  rawValue : JSVal
  val : JSVal
  shallow : Bool
deriving Repr, DecidableEq

/-- Embeds `RefImpl.set value` (src/unnamed/part_002, lines 128-138):
`newVal = this.__v_isShallow ? newVal : toRaw(newVal); if (hasChanged(newVal,
this._rawValue)) { this._rawValue = newVal; this._value = this.__v_isShallow ?
newVal : toReactive(newVal); triggerRefValue(this, newVal) }`.
`toRawF` / `toReactiveF` stand for `toRaw` / `toReactive` of reactive.ts
(not under `src/`); the returned Bool records whether `triggerRefValue` was
invoked. -/
def setRefValue (toRawF toReactiveF : JSVal → JSVal) (st : RefState) (newVal : JSVal) :
    RefState × Bool :=
  let nv := if st.shallow then newVal else toRawF newVal
  if hasChanged nv st.rawValue then
    ({ st with rawValue := nv, val := if st.shallow then nv else toReactiveF nv }, true)
  else (st, false)

/-- Property keys as stored in a target's `depsMap`, classified by their JS
`ToNumber` coercion, which is what the source's `key >= newValue` comparison
applies to a string key.  `index n` is a canonical integer array-index key
(the string `String(n)`, the only shape `isIntegerKey` accepts; it coerces
back to `n`); `numStr v` is any other numeric string key — e.g. `'1.5'`
(value 3/2) or `'01'` (value 1) — carrying its `ToNumber` value `v` (a finite
JS number, represented as a rational); `named s` is a string key whose
`ToNumber` is NaN, so every `>=` comparison on it is false; `iterate` and
`mapKeyIterate` are the two sentinel symbols.  (Symbol keys on an array target
are outside the model: on them the source's `key >= newValue` throws.) -/
inductive TKey where
  | length
  | index (n : Nat)
  | numStr (v : ℚ)
  | named (s : String)
  | iterate
  | mapKeyIterate
deriving Repr, DecidableEq

/-- Embeds `TriggerOpTypes` (operations.ts). -/
inductive TrigType where
  | set
  | add
  | del
  | clear
deriving Repr, DecidableEq

/-- Embeds `depsMap.get(key)` on the association-list embedding of the key→Dep map
(insertion order preserved, keys unique). -/
def getDep (m : List (TKey × Dep)) (k : TKey) : Option Dep :=
  (m.find? (fun p => p.1 == k)).map (fun p => p.2)

/-- The JS comparison `key >= newValue` for a depsMap key against the new
array length: the string key is coerced with `ToNumber` and compared, so it is
true for an integer index key `n` with `n ≥ newValue`, true for a non-index
numeric string key whose value is `≥ newValue`, and false for NaN-coercing
keys. -/
def keyGEnum (k : TKey) (v : Nat) : Bool :=
  match k with
  | TKey.index n => decide (v ≤ n)
  | TKey.numStr q => decide ((v : ℚ) ≤ q)
  | _ => false

/-- The dep-collection phase of `trigger` (src/unnamed/part_001,
lines 404-491): assemble the list of (possibly absent) deps to fire for a
write of kind `ty` on key `key`, on an array (`isArr`) or Map (`isMp`) or
plain target.  `newValue` is the numeric new value (only consulted by the
array-`length` branch).  Branches, in source order: CLEAR fires everything;
`key === 'length' && isArray` fires the `length` dep and every dep whose key
`>=` the new length; otherwise the dep of `key` itself plus the
iteration-sentinel deps selected by the switch on `ty`. -/
def collectTriggerDeps (isArr isMp : Bool) (m : List (TKey × Dep)) (ty : TrigType)
    (key : Option TKey) (newValue : Nat) : List (Option Dep) :=
  if ty = TrigType.clear then m.map (fun p => some p.2)
  else if key = some TKey.length ∧ isArr = true then
    m.foldl
      (fun acc p =>
        if (p.1 == TKey.length) || keyGEnum p.1 newValue then acc ++ [some p.2] else acc)
      []
  else
    (match key with
      | some k => [getDep m k]
      | none => []) ++
    (match ty with
      | TrigType.add =>
        if isArr = false then
          [getDep m TKey.iterate] ++ (if isMp = true then [getDep m TKey.mapKeyIterate] else [])
        else if (match key with | some (TKey.index _) => true | _ => false) = true then
          [getDep m TKey.length]
        else []
      | TrigType.del =>
        if isArr = false then
          [getDep m TKey.iterate] ++ (if isMp = true then [getDep m TKey.mapKeyIterate] else [])
        else []
      | TrigType.set => if isMp = true then [getDep m TKey.iterate] else []
      | TrigType.clear => [])

/-- Observable world of a readonly proxy handler: the underlying target's own
properties, the target's slice of the tracking registry, the effects fired by
`trigger` so far, and a count of dev warnings emitted. -/
structure ProxyWorld where
  target : List (String × JSVal)
  registry : List (TKey × Dep)
  fired : List EffectId
  warnings : Nat
deriving Repr, DecidableEq

/-- Embeds `readonlyHandlers.set` (src/packages/reactivity/src/baseHandlers.ts,
lines 270-278): emit a dev warning and return `true`; the target, the
registry and the fired list are untouched. -/
def readonlySet (w : ProxyWorld) (_key : String) (_value : JSVal) : ProxyWorld × Bool :=
  ({ w with warnings := w.warnings + 1 }, true)

/-- Embeds `readonlyHandlers.deleteProperty` (src/packages/reactivity/src/baseHandlers.ts,
lines 279-287): emit a dev warning and return `true`; nothing else happens. -/
def readonlyDeleteProperty (w : ProxyWorld) (_key : String) : ProxyWorld × Bool :=
  ({ w with warnings := w.warnings + 1 }, true)

/-- Objects as seen by `proxyRefs` (src/unnamed/part_002, lines 165-171):
either a base object carrying its `__v_isReactive` answer, or a proxy layer
built with `shallowUnwrapHandlers`.  A new proxy is a distinct identity. -/
inductive VObj where
  | base (id : Nat) (reactiveFlag : Bool)
  | unwrapProxy (target : VObj)
deriving Repr, DecidableEq

/-- Modelled from the spec: `isReactive` of reactive.ts is not under `src/`;
per spec §6 it reports the `__v_isReactive` flag of the value.  Reading any
key of a `shallowUnwrapHandlers` proxy forwards to the target
(src/unnamed/part_002, line 152), so the wrapper reports its target's flag. -/
def isReactive : VObj → Bool
  | VObj.base _ r => r
  | VObj.unwrapProxy t => isReactive t

/-- Embeds `proxyRefs` (src/unnamed/part_002, lines 165-171): return the argument
itself when it is reactive, else wrap it in a new `shallowUnwrapHandlers`
proxy. -/
def proxyRefs (x : VObj) : VObj :=
  if isReactive x then x else VObj.unwrapProxy x

/-- The empty tracking state: no dep has subscribers, no effect has deps. -/
def emptySt : RSt :=
  ⟨fun _ => ⟨[], 0, 0⟩, fun _ => []⟩

/-- A one-subscription state: dep 0 is subscribed to by effect 0 and
`effect0.deps = [dep0]`; all marker bits clear. -/
def oneSt : RSt :=
  ⟨fun d => if d = 0 then ⟨[0], 0, 0⟩ else ⟨[], 0, 0⟩,
   fun e => if e = 0 then [0] else []⟩

/-- Scenario 5 of the spec (nested effects), scripted against the embedded
operations exactly as the source executes it.  Effects: 0 = outer, 1 = first
inner, 2 = second inner.  Deps: 0 = `r1.dep`, 1 = `r2.dep`.
Phase 1: `effect(outer)` runs the outer at depth 1 (`trackOpBit = 2`); it reads
`r1`, then creates and runs the first inner at depth 2 (`trackOpBit = 4`),
which reads `r2`; both runs finalize.  Phase 2: a write to `r1` re-fires the
outer, whose re-run reads `r1` and creates and runs the second inner, which
reads `r2`.  The result is the tracking state after the outer's second run. -/
def nestedScenario : RSt :=
  finalizeDepMarkers 0 2
    (finalizeDepMarkers 2 4
      (trackEffects 2 4 false 1
        (initDepMarkers 2 4
          (trackEffects 0 2 false 0
            (initDepMarkers 0 2
              (finalizeDepMarkers 0 2
                (finalizeDepMarkers 1 4
                  (trackEffects 1 4 false 1
                    (initDepMarkers 1 4
                      (trackEffects 0 2 false 0
                        (initDepMarkers 0 2 emptySt)))))))))))

/-- The effects fired when `r2` is subsequently written: `triggerRefValue`
passes `r2.dep` to `triggerEffects`; no effect is a computed, none allows
recursion, no effect is active. -/
def nestedScenarioFired : List EffectId :=
  triggerEffectsFired ((nestedScenario.depOf 1).effects) (fun _ => false) (fun _ => false) none

/-- Input for the C3 witness: a plain effect (id 0) ahead of a
computed-owning effect (id 1) in the dep's iteration order. -/
def exC3Effects : List EffectId := [0, 1]

/-- The `effect.computed` test for the C3 witness. -/
def exC3isC : EffectId → Bool := fun e => e == 1

/-- depsMap of a reactive array for the C7 witness: deps registered under
`length`, index 0, index 2, and the numeric string key `'1.5'`. -/
def exM : List (TKey × Dep) :=
  [(TKey.length, ⟨[10], 0, 0⟩), (TKey.index 0, ⟨[11], 0, 0⟩),
   (TKey.index 2, ⟨[12], 0, 0⟩), (TKey.numStr (mkRat 3 2), ⟨[13], 0, 0⟩)]

/-- depsMap for the C7 counterexample: a single dep registered under the
numeric string key `'1.5'` (ToNumber value 3/2). -/
def ceM : List (TKey × Dep) :=
  [(TKey.numStr (mkRat 3 2), ⟨[13], 0, 0⟩)]

/-! ## Basic lemmas about the embedded JS `Set` operations and state updates -/

theorem mem_setAdd (x e : EffectId) (l : List EffectId) :
    x ∈ setAdd e l ↔ x = e ∨ x ∈ l := by
  unfold setAdd
  split
  · rename_i h
    constructor
    · exact fun hx => Or.inr hx
    · rintro (rfl | hx)
      · exact h
      · exact hx
  · simp [List.mem_append, or_comm]

theorem mem_setAdd_self (e : EffectId) (l : List EffectId) : e ∈ setAdd e l :=
  (mem_setAdd e e l).2 (Or.inl rfl)

theorem mem_setDelete (x e : EffectId) (l : List EffectId) :
    x ∈ setDelete e l ↔ x ∈ l ∧ x ≠ e := by
  simp [setDelete, List.mem_filter]

theorem not_mem_setDelete_self (e : EffectId) (l : List EffectId) : e ∉ setDelete e l := by
  intro h
  exact ((mem_setDelete e e l).1 h).2 rfl

theorem updDep_depOf_self (s : RSt) (d : DepId) (dp : Dep) :
    (updDep s d dp).depOf d = dp := by
  simp [updDep, Function.update]

theorem updDep_depOf_ne (s : RSt) (d : DepId) (dp : Dep) (d2 : DepId) (h : d2 ≠ d) :
    (updDep s d dp).depOf d2 = s.depOf d2 := by
  simp [updDep, Function.update, h]

theorem updDep_edepsOf (s : RSt) (d : DepId) (dp : Dep) (e : EffectId) :
    (updDep s d dp).edepsOf e = s.edepsOf e := rfl

theorem setEdeps_depOf (s : RSt) (e : EffectId) (l : List DepId) (d : DepId) :
    (setEdeps s e l).depOf d = s.depOf d := rfl

theorem setEdeps_edepsOf_self (s : RSt) (e : EffectId) (l : List DepId) :
    (setEdeps s e l).edepsOf e = l := by
  simp [setEdeps, Function.update]

theorem setEdeps_edepsOf_ne (s : RSt) (e : EffectId) (l : List DepId) (e2 : EffectId)
    (h : e2 ≠ e) : (setEdeps s e l).edepsOf e2 = s.edepsOf e2 := by
  simp [setEdeps, Function.update, h]

theorem clearBit_self (b : Nat) : clearBit b b = 0 := by
  simp [clearBit, Nat.and_self, Nat.xor_self]

theorem clearBit_zero (b : Nat) : clearBit 0 b = 0 := by
  simp [clearBit, Nat.zero_and]

theorem wasTracked_zero (b : Nat) (dp : Dep) (h : dp.w = 0) : wasTracked dp b = false := by
  simp [wasTracked, h, Nat.zero_and]

theorem wasTracked_bit (b : Nat) (hb : 0 < b) (dp : Dep) (h : dp.w = b) :
    wasTracked dp b = true := by
  simp [wasTracked, h, Nat.and_self, hb]

theorem newTracked_zero (b : Nat) (dp : Dep) (h : dp.n = 0) : newTracked dp b = false := by
  simp [newTracked, h, Nat.zero_and]

theorem newTracked_bit (b : Nat) (hb : 0 < b) (dp : Dep) (h : dp.n = b) :
    newTracked dp b = true := by
  simp [newTracked, h, Nat.and_self, hb]

/-! ## Claim C6: the ref write change guard -/

/-- Claim C6: assigning to `r.value` invokes `triggerRefValue` exactly when the
new value, unwrapped to raw unless the ref is shallow, differs from the stored
`_rawValue` under the "same value or both NaN" comparison; and writing the same
value a second time fires nothing and leaves the stored state unchanged. -/
theorem ref_set_change_guard (toRawF toReactiveF : JSVal → JSVal) (st : RefState)
    (v : JSVal) :
    ((setRefValue toRawF toReactiveF st v).2 = true ↔
      (if st.shallow then v else toRawF v) ≠ st.rawValue) ∧
    (setRefValue toRawF toReactiveF (setRefValue toRawF toReactiveF st v).1 v).2 = false ∧
    (setRefValue toRawF toReactiveF (setRefValue toRawF toReactiveF st v).1 v).1 =
      (setRefValue toRawF toReactiveF st v).1 := by
  classical
  unfold setRefValue
  by_cases hch : hasChanged (if st.shallow then v else toRawF v) st.rawValue = true
  · have hne : (if st.shallow then v else toRawF v) ≠ st.rawValue := by
      simpa [hasChanged] using hch
    refine ⟨by simp [hch, hne], ?_⟩
    simp only [hch, if_true]
    have h2 : hasChanged (if st.shallow then v else toRawF v)
        (if st.shallow then v else toRawF v) = false := by
      simp [hasChanged]
    simp [h2]
  · have hch2 : hasChanged (if st.shallow then v else toRawF v) st.rawValue = false := by
      simpa using hch
    have heq : (if st.shallow then v else toRawF v) = st.rawValue := by
      by_contra hne
      simp [hasChanged, hne] at hch2
    have hself : ∀ a : JSVal, hasChanged a a = false := by
      intro a
      simp [hasChanged]
    simp [hch2, heq, hself]

/-! ## Claim C8: readonly writes are no-ops -/

/-- Claim C8: the readonly `set` and `deleteProperty` traps return `true`
without mutating the target, without firing any effect, and without touching
the tracking registry; incrementing the dev-warning count is the only
observable side effect. -/
theorem readonly_write_noop (w : ProxyWorld) (k : String) (v : JSVal) :
    (readonlySet w k v).2 = true ∧
    (readonlySet w k v).1.target = w.target ∧
    (readonlySet w k v).1.registry = w.registry ∧
    (readonlySet w k v).1.fired = w.fired ∧
    (readonlySet w k v).1.warnings = w.warnings + 1 ∧
    (readonlyDeleteProperty w k).2 = true ∧
    (readonlyDeleteProperty w k).1.target = w.target ∧
    (readonlyDeleteProperty w k).1.registry = w.registry ∧
    (readonlyDeleteProperty w k).1.fired = w.fired ∧
    (readonlyDeleteProperty w k).1.warnings = w.warnings + 1 :=
  ⟨rfl, rfl, rfl, rfl, rfl, rfl, rfl, rfl, rfl, rfl⟩

/-! ## Claim C10: proxyRefs is the identity on reactive inputs -/

theorem unwrapProxy_ne (x : VObj) : VObj.unwrapProxy x ≠ x := by
  induction x with
  | base id r => exact fun h => VObj.noConfusion h
  | unwrapProxy t ih =>
    intro h
    injection h with h2
    exact ih h2

/-- Claim C10: for every object with `isReactive` true, `proxyRefs` returns the
object itself (same identity, no new proxy layer); a non-reactive object is
wrapped in a new `shallowUnwrapHandlers` proxy, which is a distinct identity. -/
theorem proxyRefs_identity_on_reactive (x : VObj) :
    (isReactive x = true → proxyRefs x = x) ∧
    (isReactive x = false → proxyRefs x = VObj.unwrapProxy x ∧ proxyRefs x ≠ x) := by
  constructor
  · intro h
    simp [proxyRefs, h]
  · intro h
    refine ⟨by simp [proxyRefs, h], ?_⟩
    simp only [proxyRefs, h]
    simp [unwrapProxy_ne]

/-- Witness for C10 at concrete inputs: a reactive base object is returned
unchanged, a non-reactive one is wrapped. -/
theorem proxyRefs_identity_on_reactive_witness :
    proxyRefs (VObj.base 0 true) = VObj.base 0 true ∧
    proxyRefs (VObj.base 1 false) = VObj.unwrapProxy (VObj.base 1 false) :=
  ⟨(proxyRefs_identity_on_reactive (VObj.base 0 true)).1 rfl,
   ((proxyRefs_identity_on_reactive (VObj.base 1 false)).2 rfl).1⟩

/-! ## Claim C3: computed-owning effects fire before plain effects -/

theorem append_get_cases {α : Type} (l1 l2 : List α) (i : Nat)
    (h : i < (l1 ++ l2).length) :
    ((l1 ++ l2).get ⟨i, h⟩ ∈ l1 ∧ i < l1.length) ∨
    ((l1 ++ l2).get ⟨i, h⟩ ∈ l2 ∧ l1.length ≤ i) := by
  induction l1 generalizing i with
  | nil =>
    right
    refine ⟨?_, Nat.zero_le i⟩
    exact List.get_mem _ _ _
  | cons a t ih =>
    cases i with
    | zero =>
      left
      exact ⟨List.mem_cons_self a t, Nat.succ_pos t.length⟩
    | succ i2 =>
      have h2 : i2 < (t ++ l2).length := by
        simpa [Nat.succ_lt_succ_iff] using h
      rcases ih i2 h2 with ⟨hm, hlt⟩ | ⟨hm, hle⟩
      · left
        exact ⟨List.mem_cons_of_mem a hm, Nat.succ_lt_succ hlt⟩
      · right
        exact ⟨hm, Nat.succ_le_succ hle⟩

/-- Claim C3: within one `triggerEffects` call, every fired effect that owns a
computed precedes every fired effect that does not, regardless of the iteration
order of the underlying dep set. -/
theorem computed_effects_fire_first (effs : List EffectId) (isC aR : EffectId → Bool)
    (act : Option EffectId) (i j : Nat)
    (hi : i < (triggerEffectsFired effs isC aR act).length)
    (hj : j < (triggerEffectsFired effs isC aR act).length)
    (h1 : isC ((triggerEffectsFired effs isC aR act).get ⟨i, hi⟩) = true)
    (h2 : isC ((triggerEffectsFired effs isC aR act).get ⟨j, hj⟩) = false) :
    i < j := by
  have hiL : i < (effs.filter (fun e => isC e && firesB aR act e)).length := by
    rcases append_get_cases (effs.filter (fun e => isC e && firesB aR act e))
        (effs.filter (fun e => !isC e && firesB aR act e)) i hi with ⟨_, hlt⟩ | ⟨hm, _⟩
    · exact hlt
    · exfalso
      have hx := (List.mem_filter.1 hm).2
      have h1x : isC ((effs.filter (fun e => isC e && firesB aR act e) ++
          effs.filter (fun e => !isC e && firesB aR act e)).get ⟨i, hi⟩) = true := h1
      rw [h1x] at hx
      simp at hx
  have hjL : (effs.filter (fun e => isC e && firesB aR act e)).length ≤ j := by
    rcases append_get_cases (effs.filter (fun e => isC e && firesB aR act e))
        (effs.filter (fun e => !isC e && firesB aR act e)) j hj with ⟨hm, _⟩ | ⟨_, hle⟩
    · exfalso
      have hx := (List.mem_filter.1 hm).2
      have h2x : isC ((effs.filter (fun e => isC e && firesB aR act e) ++
          effs.filter (fun e => !isC e && firesB aR act e)).get ⟨j, hj⟩) = false := h2
      rw [h2x] at hx
      simp at hx
    · exact hle
  exact Nat.lt_of_lt_of_le hiL hjL

/-- Witness for C3: with the plain effect ahead of the computed-owning effect
in the dep's iteration order, the fired sequence is `[1, 0]` and the theorem
places the computed (position 0) before the plain effect (position 1). -/
theorem computed_effects_fire_first_witness :
    triggerEffectsFired exC3Effects exC3isC (fun _ => false) none = [1, 0] ∧ 0 < 1 :=
  ⟨by decide,
   computed_effects_fire_first exC3Effects exC3isC (fun _ => false) none 0 1
     (by decide) (by decide) (by decide) (by decide)⟩

/-! ## Claim C4: no self re-entry (corrected) -/

/-- Counterexample to C4 as stated: an effect that occurs in the parent chain
of the current active effect but has been stopped (`active = false`, reachable
when a descendant calls its `stop()` and then its runner) does not return
immediately — `run()` invokes `fn` through the `if (!this.active) return
this.fn()` short-circuit.  Concretely: `activeEffect` is effect 1, whose
parent is effect 0, so effect 0 is in the chain; running effect 0 with
`active = false` invokes `fn`. -/
theorem run_self_in_chain_counterexample :
    selfInChain ceParent 0 (some 1) 2 = true ∧
    (runBehavior false (selfInChain ceParent 0 (some 1) 2)).fnInvoked = true := by
  decide

/-- Claim C4, amended: for every *active* effect `e`, if `e` occurs in the
parent chain starting at the current `activeEffect`, then `run()` returns
immediately without invoking `fn` and without tracking; and during `trigger`,
the currently active effect is not fired (neither its scheduler nor `run` is
invoked) unless its `allowRecurse` flag is set. -/
theorem run_no_self_reentry_amended :
    (∀ (parentOf : Nat → Option Nat) (self : Nat) (act : Option Nat) (fuel : Nat),
      selfInChain parentOf self act fuel = true →
      (runBehavior true (selfInChain parentOf self act fuel)).fnInvoked = false ∧
      (runBehavior true (selfInChain parentOf self act fuel)).tracked = false) ∧
    (∀ (effs : List EffectId) (isC aR : EffectId → Bool) (e : EffectId),
      aR e = false → e ∉ triggerEffectsFired effs isC aR (some e)) := by
  constructor
  · intro parentOf self act fuel h
    rw [h]
    exact ⟨rfl, rfl⟩
  · intro effs isC aR e hAR hmem
    have hfires : firesB aR (some e) e = false := by
      simp [firesB, hAR]
    rcases List.mem_append.1 hmem with hm | hm
    · have := (List.mem_filter.1 hm).2
      rw [hfires] at this
      simp at this
    · have := (List.mem_filter.1 hm).2
      rw [hfires] at this
      simp at this

/-- Witness for the amended C4: an active effect re-running itself returns
without invoking `fn`, and an active effect with `allowRecurse` unset is not
fired by `triggerEffects` even though it subscribes to the dep. -/
theorem run_no_self_reentry_amended_witness :
    (runBehavior true (selfInChain cePw 7 (some 7) 1)).fnInvoked = false ∧
    5 ∉ triggerEffectsFired [5] (fun _ => false) (fun _ => false) (some 5) :=
  ⟨(run_no_self_reentry_amended.1 cePw 7 (some 7) 1 (by decide)).1,
   run_no_self_reentry_amended.2 [5] (fun _ => false) (fun _ => false) 5 rfl⟩

/-! ## Claim C5: computed laziness and caching -/

theorem computedRead_fixed (g : Int) (st : ComputedState) (h1 : st.dirty = false)
    (h2 : st.cacheable = true) : computedRead g st = st := by
  simp [computedRead, h1, h2]

/-- Claim C5: constructing a computed never invokes the getter, and in non-SSR
mode any positive number of reads with no intervening invalidation of the
underlying deps invokes the getter exactly once; after an invalidation
(the owned effect's scheduler firing), the next block of reads invokes it
exactly once more. -/
theorem computed_lazy_and_cached (g : Int) (n m : Nat) (hn : 1 ≤ n) (hm : 1 ≤ m) :
    (∀ isSSR : Bool, (mkComputedState isSSR).getterCalls = 0) ∧
    ((computedRead g)^[n] (mkComputedState false)).getterCalls = 1 ∧
    ((computedRead g)^[m]
      (computedSchedulerFire ((computedRead g)^[n] (mkComputedState false))).1).getterCalls
      = 2 := by
  obtain ⟨k, rfl⟩ : ∃ k, n = k + 1 := ⟨n - 1, by omega⟩
  obtain ⟨k2, rfl⟩ : ∃ k2, m = k2 + 1 := ⟨m - 1, by omega⟩
  have hs1 : computedRead g (mkComputedState false) =
      ⟨false, true, some g, 1⟩ := by
    simp [computedRead, mkComputedState]
  have hiter1 : (computedRead g)^[k + 1] (mkComputedState false) =
      (⟨false, true, some g, 1⟩ : ComputedState) := by
    rw [Function.iterate_succ_apply, hs1]
    exact Function.iterate_fixed (computedRead_fixed g _ rfl rfl) k
  have hfire : computedSchedulerFire (⟨false, true, some g, 1⟩ : ComputedState) =
      (⟨true, true, some g, 1⟩, true) := by
    simp [computedSchedulerFire]
  have hs2 : computedRead g (⟨true, true, some g, 1⟩ : ComputedState) =
      ⟨false, true, some g, 2⟩ := by
    simp [computedRead]
  refine ⟨fun isSSR => rfl, by rw [hiter1], ?_⟩
  rw [hiter1, hfire]
  rw [Function.iterate_succ_apply, hs2]
  rw [Function.iterate_fixed (computedRead_fixed g _ rfl rfl) k2]

/-- Witness for C5: construction in SSR and non-SSR mode performs zero getter
calls; two reads perform one call; invalidation plus three more reads performs
one more. -/
theorem computed_lazy_and_cached_witness :
    (mkComputedState true).getterCalls = 0 ∧
    ((computedRead 6)^[2] (mkComputedState false)).getterCalls = 1 ∧
    ((computedRead 6)^[3]
      (computedSchedulerFire ((computedRead 6)^[2] (mkComputedState false))).1).getterCalls
      = 2 :=
  ⟨(computed_lazy_and_cached 6 2 3 (by decide) (by decide)).1 true,
   (computed_lazy_and_cached 6 2 3 (by decide) (by decide)).2.1,
   (computed_lazy_and_cached 6 2 3 (by decide) (by decide)).2.2⟩

/-! ## Claim C9: nested-effect detachment (corrected) -/

/-- Counterexample to C9 as stated: in the nested-effect scenario (outer reads
`r1` and creates an inner reading `r2`; `r1` is written, the outer re-runs and
creates a fresh inner), a subsequent write to `r2` fires the *stale* first
inner effect (id 1) as well — nothing in the reactivity core detaches it. -/
theorem nested_stale_inner_refires_counterexample :
    1 ∈ nestedScenarioFired := by
  decide

/-- Claim C9, amended: after the `r1` mutation re-runs the outer and creates a
fresh inner effect, a subsequent mutation of `r2` re-fires *both* the stale
inner (id 1) and the new inner (id 2): the stale inner stays subscribed to
`r2`'s dep, and detaching it requires an explicit `stop()` or an enclosing
effect scope, which the reactivity core does not do on re-run. -/
theorem nested_inner_effects_both_refire :
    (nestedScenario.depOf 1).effects = [1, 2] ∧ nestedScenarioFired = [1, 2] := by
  decide

/-! ## Lemmas about `initDepMarkers` -/

theorem initStep_depOf_other (b : Nat) (s : RSt) (a d : DepId) :
    ((initStep b s a).depOf d).n = (s.depOf d).n ∧
    ((initStep b s a).depOf d).effects = (s.depOf d).effects := by
  by_cases h : d = a
  · subst h
    simp [initStep, updDep_depOf_self]
  · simp [initStep, updDep_depOf_ne _ _ _ _ h]

theorem initFold_n (b : Nat) (l : List DepId) (s : RSt) (d : DepId) :
    ((l.foldl (initStep b) s).depOf d).n = (s.depOf d).n := by
  induction l generalizing s with
  | nil => rfl
  | cons a t ih =>
    simp only [List.foldl_cons]
    rw [ih, (initStep_depOf_other b s a d).1]

theorem initFold_effects (b : Nat) (l : List DepId) (s : RSt) (d : DepId) :
    ((l.foldl (initStep b) s).depOf d).effects = (s.depOf d).effects := by
  induction l generalizing s with
  | nil => rfl
  | cons a t ih =>
    simp only [List.foldl_cons]
    rw [ih, (initStep_depOf_other b s a d).2]

theorem initFold_edepsOf (b : Nat) (l : List DepId) (s : RSt) :
    (l.foldl (initStep b) s).edepsOf = s.edepsOf := by
  induction l generalizing s with
  | nil => rfl
  | cons a t ih =>
    simp only [List.foldl_cons]
    rw [ih]
    rfl

theorem initFold_w (b : Nat) (l : List DepId) (s : RSt) (d : DepId)
    (h : (s.depOf d).w = 0 ∨ (s.depOf d).w = b) :
    ((l.foldl (initStep b) s).depOf d).w = if d ∈ l then b else (s.depOf d).w := by
  induction l generalizing s with
  | nil => simp
  | cons a t ih =>
    simp only [List.foldl_cons]
    by_cases hda : d = a
    · subst hda
      have hw : ((initStep b s d).depOf d).w = b := by
        simp only [initStep, updDep_depOf_self]
        rcases h with h | h <;> simp [h, Nat.zero_or, Nat.or_self]
      rw [ih _ (Or.inr hw), hw]
      simp [List.mem_cons]
    · have heq : (initStep b s a).depOf d = s.depOf d := by
        simp only [initStep, updDep_depOf_ne _ _ _ _ hda]
      rw [ih _ (by rw [heq]; exact h), heq]
      simp [List.mem_cons, hda]

/-! ## Branch equations and frame lemmas for `trackEffects` -/

theorem trackEffects_already (e b : Nat) (d : DepId) (s : RSt)
    (h : newTracked (s.depOf d) b = true) : trackEffects e b false d s = s := by
  simp [trackEffects, h]

theorem trackEffects_was (e b : Nat) (d : DepId) (s : RSt)
    (hnew : newTracked (s.depOf d) b = false) (hwas : wasTracked (s.depOf d) b = true) :
    trackEffects e b false d s = updDep s d { s.depOf d with n := (s.depOf d).n ||| b } := by
  simp [trackEffects, hnew, hwas]

theorem trackEffects_fresh (e b : Nat) (d : DepId) (s : RSt)
    (hnew : newTracked (s.depOf d) b = false) (hwas : wasTracked (s.depOf d) b = false) :
    trackEffects e b false d s =
      setEdeps
        (updDep s d
          { s.depOf d with
            n := (s.depOf d).n ||| b
            effects := setAdd e (s.depOf d).effects })
        e (s.edepsOf e ++ [d]) := by
  simp [trackEffects, hnew, hwas]

theorem trackEffects_depOf_ne (e b : Nat) (dm : Bool) (d : DepId) (s : RSt) (d2 : DepId)
    (h : d2 ≠ d) : (trackEffects e b dm d s).depOf d2 = s.depOf d2 := by
  unfold trackEffects
  split
  · split
    · rfl
    · rw [setEdeps_depOf, updDep_depOf_ne _ _ _ _ h]
  · split
    · rfl
    · split
      · rw [updDep_depOf_ne _ _ _ _ h]
      · rw [setEdeps_depOf, updDep_depOf_ne _ _ _ _ h]

theorem trackFold_frame (e b : Nat) (reads : List DepId) (s : RSt) (d2 : DepId)
    (h : d2 ∉ reads) :
    ((reads.foldl (fun s2 d => trackEffects e b false d s2) s).depOf d2) = s.depOf d2 := by
  induction reads generalizing s with
  | nil => rfl
  | cons a t ih =>
    simp only [List.foldl_cons]
    have h2 : d2 ∉ t := fun hx => h (List.mem_cons_of_mem a hx)
    have hda : d2 ≠ a := fun hx => h (hx ▸ List.mem_cons_self a t)
    rw [ih _ h2, trackEffects_depOf_ne e b false a s d2 hda]

/-! ## The tracking-pass invariant: establishment and preservation -/

theorem trackInv_init (e b : Nat) (st : RSt) (hb : 0 < b)
    (hz : ∀ d, (st.depOf d).w = 0 ∧ (st.depOf d).n = 0) (hinv : InvAll st) :
    TrackInv e b st (initDepMarkers e b st) [] := by
  have hw : ∀ d, ((initDepMarkers e b st).depOf d).w = if d ∈ st.edepsOf e then b else 0 := by
    intro d
    have h2 := initFold_w b (st.edepsOf e) st d (Or.inl (hz d).1)
    rw [(hz d).1] at h2
    exact h2
  have hn : ∀ d, ((initDepMarkers e b st).depOf d).n = 0 := by
    intro d
    rw [initDepMarkers, initFold_n, (hz d).2]
  have hE : ∀ d, ((initDepMarkers e b st).depOf d).effects = (st.depOf d).effects := by
    intro d
    rw [initDepMarkers, initFold_effects]
  have hD : (initDepMarkers e b st).edepsOf = st.edepsOf := initFold_edepsOf b _ st
  refine ⟨hw, fun d => Or.inr (hn d), by rw [hD]; simp, List.nodup_nil,
    fun d hd => absurd hd (List.not_mem_nil d), fun d hd => absurd hd (List.not_mem_nil d),
    ?_, ?_, ?_, ?_⟩
  · intro d hd
    have h0 : (0 : Nat) = b := (hn d).symm.trans hd
    omega
  · intro d
    rw [hE d, ← hinv d e]
    simp
  · intro d e2 _
    rw [hE d]
  · intro e2 _
    rw [hD]

theorem trackInv_step (e b : Nat) (st s : RSt) (nw : List DepId) (d : DepId) (hb : 0 < b)
    (inv : TrackInv e b st s nw) :
    TrackInv e b st (trackEffects e b false d s) nw ∨
    TrackInv e b st (trackEffects e b false d s) (nw ++ [d]) := by
  rcases inv.nVals d with hn | hn
  · left
    rw [trackEffects_already e b d s (newTracked_bit b hb _ hn)]
    exact inv
  · have hnew : newTracked (s.depOf d) b = false := newTracked_zero b _ hn
    by_cases hdo : d ∈ st.edepsOf e
    · left
      have hwb : (s.depOf d).w = b := by rw [inv.wChar d, if_pos hdo]
      rw [trackEffects_was e b d s hnew (wasTracked_bit b hb _ hwb)]
      have hnn : ((s.depOf d).n ||| b) = b := by rw [hn, Nat.zero_or]
      refine ⟨?_, ?_, ?_, inv.nwNodup, inv.nwFresh, ?_, ?_, ?_, ?_, ?_⟩
      · intro d2
        by_cases h : d2 = d
        · subst h
          rw [updDep_depOf_self]
          exact inv.wChar d2
        · rw [updDep_depOf_ne _ _ _ _ h]
          exact inv.wChar d2
      · intro d2
        by_cases h : d2 = d
        · subst h
          rw [updDep_depOf_self]
          exact Or.inl hnn
        · rw [updDep_depOf_ne _ _ _ _ h]
          exact inv.nVals d2
      · rw [updDep_edepsOf]
        exact inv.eSplit
      · intro d2 hd2
        by_cases h : d2 = d
        · subst h
          rw [updDep_depOf_self]
          exact hnn
        · rw [updDep_depOf_ne _ _ _ _ h]
          exact inv.nwN d2 hd2
      · intro d2 hd2
        by_cases h : d2 = d
        · subst h
          exact Or.inl hdo
        · rw [updDep_depOf_ne _ _ _ _ h] at hd2
          exact inv.nScan d2 hd2
      · intro d2
        by_cases h : d2 = d
        · subst h
          rw [updDep_depOf_self]
          exact inv.eMem d2
        · rw [updDep_depOf_ne _ _ _ _ h]
          exact inv.eMem d2
      · intro d2 e2 he2
        by_cases h : d2 = d
        · subst h
          rw [updDep_depOf_self]
          exact inv.othersE d2 e2 he2
        · rw [updDep_depOf_ne _ _ _ _ h]
          exact inv.othersE d2 e2 he2
      · intro e2 he2
        rw [updDep_edepsOf]
        exact inv.othersD e2 he2
    · right
      have hw0 : (s.depOf d).w = 0 := by rw [inv.wChar d, if_neg hdo]
      rw [trackEffects_fresh e b d s hnew (wasTracked_zero b _ hw0)]
      have hnn : ((s.depOf d).n ||| b) = b := by rw [hn, Nat.zero_or]
      have hdnw : d ∉ nw := by
        intro hx
        have h0 : (0 : Nat) = b := hn.symm.trans (inv.nwN d hx)
        omega
      refine ⟨?_, ?_, ?_, ?_, ?_, ?_, ?_, ?_, ?_, ?_⟩
      · intro d2
        rw [setEdeps_depOf]
        by_cases h : d2 = d
        · subst h
          rw [updDep_depOf_self]
          exact inv.wChar d2
        · rw [updDep_depOf_ne _ _ _ _ h]
          exact inv.wChar d2
      · intro d2
        rw [setEdeps_depOf]
        by_cases h : d2 = d
        · subst h
          rw [updDep_depOf_self]
          exact Or.inl hnn
        · rw [updDep_depOf_ne _ _ _ _ h]
          exact inv.nVals d2
      · rw [setEdeps_edepsOf_self, inv.eSplit, List.append_assoc]
      · rw [List.nodup_append]
        refine ⟨inv.nwNodup, List.nodup_singleton d, ?_⟩
        intro a ha hb2
        rw [List.mem_singleton] at hb2
        subst hb2
        exact hdnw ha
      · intro d2 hd2
        rcases List.mem_append.1 hd2 with h | h
        · exact inv.nwFresh d2 h
        · rw [List.mem_singleton] at h
          subst h
          exact hdo
      · intro d2 hd2
        rw [setEdeps_depOf]
        rcases List.mem_append.1 hd2 with h | h
        · have hne : d2 ≠ d := fun hx => hdnw (hx ▸ h)
          rw [updDep_depOf_ne _ _ _ _ hne]
          exact inv.nwN d2 h
        · rw [List.mem_singleton] at h
          subst h
          rw [updDep_depOf_self]
          exact hnn
      · intro d2 hd2
        rw [setEdeps_depOf] at hd2
        by_cases h : d2 = d
        · subst h
          exact Or.inr (List.mem_append_right nw (List.mem_singleton.2 rfl))
        · rw [updDep_depOf_ne _ _ _ _ h] at hd2
          rcases inv.nScan d2 hd2 with h2 | h2
          · exact Or.inl h2
          · exact Or.inr (List.mem_append_left _ h2)
      · intro d2
        rw [setEdeps_depOf]
        by_cases h : d2 = d
        · subst h
          rw [updDep_depOf_self]
          constructor
          · intro _
            exact Or.inr (List.mem_append_right nw (List.mem_singleton.2 rfl))
          · intro _
            exact mem_setAdd_self e _
        · rw [updDep_depOf_ne _ _ _ _ h]
          rw [inv.eMem d2]
          constructor
          · rintro (h2 | h2)
            · exact Or.inl h2
            · exact Or.inr (List.mem_append_left _ h2)
          · rintro (h2 | h2)
            · exact Or.inl h2
            · rcases List.mem_append.1 h2 with h3 | h3
              · exact Or.inr h3
              · rw [List.mem_singleton] at h3
                exact absurd h3 h
      · intro d2 e2 he2
        rw [setEdeps_depOf]
        by_cases h : d2 = d
        · subst h
          rw [updDep_depOf_self]
          rw [← inv.othersE d2 e2 he2]
          simp only [mem_setAdd]
          constructor
          · rintro (h2 | h2)
            · exact absurd h2 he2
            · exact h2
          · exact fun h2 => Or.inr h2
        · rw [updDep_depOf_ne _ _ _ _ h]
          exact inv.othersE d2 e2 he2
      · intro e2 he2
        rw [setEdeps_edepsOf_ne _ _ _ _ he2, updDep_edepsOf]
        exact inv.othersD e2 he2

theorem trackInv_fold (e b : Nat) (st : RSt) (reads : List DepId) (s : RSt) (nw : List DepId)
    (hb : 0 < b) (inv : TrackInv e b st s nw) :
    ∃ nw2, TrackInv e b st (reads.foldl (fun s2 d => trackEffects e b false d s2) s) nw2 := by
  induction reads generalizing s nw with
  | nil => exact ⟨nw, inv⟩
  | cons a t ih =>
    simp only [List.foldl_cons]
    rcases trackInv_step e b st s nw a hb inv with h | h
    · exact ih _ _ h
    · exact ih _ _ h

/-! ## Characterization of the `finalizeDepMarkers` scan -/

theorem finFold_spec (e b : Nat) (l : List DepId) (hnd : l.Nodup) (s : RSt)
    (k0 : List DepId) :
    (∀ d, d ∈ l → (l.foldl (finStep e b) (s, k0)).1.depOf d = finOne e b (s.depOf d)) ∧
    (∀ d, d ∉ l → (l.foldl (finStep e b) (s, k0)).1.depOf d = s.depOf d) ∧
    (l.foldl (finStep e b) (s, k0)).2 =
      k0 ++ l.filter (fun d => !(killQ (s.depOf d) b)) ∧
    (l.foldl (finStep e b) (s, k0)).1.edepsOf = s.edepsOf := by
  induction l generalizing s k0 with
  | nil =>
    exact ⟨fun d hd => absurd hd (List.not_mem_nil d), fun d _ => rfl, by simp, rfl⟩
  | cons a t ih =>
    obtain ⟨hat, hndt⟩ := List.nodup_cons.1 hnd
    simp only [List.foldl_cons]
    have hstep : finStep e b (s, k0) a =
        (updDep s a (finOne e b (s.depOf a)),
          if killQ (s.depOf a) b then k0 else k0 ++ [a]) := rfl
    rw [hstep]
    obtain ⟨ih1, ih2, ih3, ih4⟩ :=
      ih hndt (updDep s a (finOne e b (s.depOf a)))
        (if killQ (s.depOf a) b then k0 else k0 ++ [a])
    refine ⟨?_, ?_, ?_, ?_⟩
    · intro d hd
      rcases List.mem_cons.1 hd with rfl | hd2
      · rw [ih2 d hat, updDep_depOf_self]
      · have hne : d ≠ a := fun hx => hat (hx ▸ hd2)
        rw [ih1 d hd2, updDep_depOf_ne _ _ _ _ hne]
    · intro d hd
      have hne : d ≠ a := fun hx => hd (hx ▸ List.mem_cons_self a t)
      have hdt : d ∉ t := fun hx => hd (List.mem_cons_of_mem a hx)
      rw [ih2 d hdt, updDep_depOf_ne _ _ _ _ hne]
    · rw [ih3]
      have hfilter :
          t.filter (fun d => !(killQ ((updDep s a (finOne e b (s.depOf a))).depOf d) b))
            = t.filter (fun d => !(killQ (s.depOf d) b)) := by
        apply List.filter_congr
        intro d hd
        have hne : d ≠ a := fun hx => hat (hx ▸ hd)
        rw [updDep_depOf_ne _ _ _ _ hne]
      rw [hfilter]
      by_cases hk : killQ (s.depOf a) b = true
      · rw [if_pos hk, List.filter_cons_of_neg (by simp [hk])]
      · rw [if_neg hk,
          List.filter_cons_of_pos (by simp only [Bool.not_eq_true] at hk; simp [hk]),
          List.append_assoc, List.singleton_append]
    · rw [ih4]
      rfl

theorem finalizeDepMarkers_eq (e b : Nat) (s : RSt) :
    finalizeDepMarkers e b s =
      setEdeps ((s.edepsOf e).foldl (finStep e b) (s, [])).1 e
        ((s.edepsOf e).foldl (finStep e b) (s, [])).2 := rfl

theorem finOne_w (e b : Nat) (dp : Dep) : (finOne e b dp).w = clearBit dp.w b := by
  by_cases h : killQ dp b <;> simp [finOne, h]

theorem finOne_n (e b : Nat) (dp : Dep) : (finOne e b dp).n = clearBit dp.n b := by
  by_cases h : killQ dp b <;> simp [finOne, h]

theorem finOne_effects_kill (e b : Nat) (dp : Dep) (h : killQ dp b = true) :
    (finOne e b dp).effects = setDelete e dp.effects := by
  simp [finOne, h]

theorem finOne_effects_keep (e b : Nat) (dp : Dep) (h : killQ dp b = false) :
    (finOne e b dp).effects = dp.effects := by
  simp [finOne, h]

/-- What `finalizeDepMarkers` guarantees at the end of a tracking pass
satisfying `TrackInv`: all marker bits cleared, the bidirectional membership
invariant restored, the effect's `deps` array duplicate-free, other effects'
`deps` arrays untouched, and every previously-subscribed dep whose `n` marker
was never set during the pass loses the effect on both sides. -/
theorem finalize_spec (e b : Nat) (st s : RSt) (nw : List DepId) (hb : 0 < b)
    (hnd : (st.edepsOf e).Nodup) (hinv : InvAll st)
    (inv : TrackInv e b st s nw) :
    (∀ d, ((finalizeDepMarkers e b s).depOf d).w = 0 ∧
      ((finalizeDepMarkers e b s).depOf d).n = 0) ∧
    InvAll (finalizeDepMarkers e b s) ∧
    ((finalizeDepMarkers e b s).edepsOf e).Nodup ∧
    (∀ e2, e2 ≠ e → (finalizeDepMarkers e b s).edepsOf e2 = st.edepsOf e2) ∧
    (∀ d, d ∈ st.edepsOf e → (s.depOf d).n = 0 →
      e ∉ ((finalizeDepMarkers e b s).depOf d).effects ∧
      d ∉ (finalizeDepMarkers e b s).edepsOf e) := by
  have hL : s.edepsOf e = st.edepsOf e ++ nw := inv.eSplit
  have hLnd : (s.edepsOf e).Nodup := by
    rw [hL, List.nodup_append]
    exact ⟨hnd, inv.nwNodup, fun a ha hb2 => inv.nwFresh a hb2 ha⟩
  obtain ⟨ff1, ff2, ff3, ff4⟩ := finFold_spec e b (s.edepsOf e) hLnd s []
  have hedE : (finalizeDepMarkers e b s).edepsOf e =
      (s.edepsOf e).filter (fun d => !(killQ (s.depOf d) b)) := by
    rw [finalizeDepMarkers_eq, setEdeps_edepsOf_self, ff3, List.nil_append]
  have hedO : ∀ e2, e2 ≠ e → (finalizeDepMarkers e b s).edepsOf e2 = st.edepsOf e2 := by
    intro e2 he2
    rw [finalizeDepMarkers_eq, setEdeps_edepsOf_ne _ _ _ _ he2, ff4, inv.othersD e2 he2]
  have hkillT : ∀ d, d ∈ st.edepsOf e → (s.depOf d).n = 0 → killQ (s.depOf d) b = true := by
    intro d hdo hn0
    have hwb : (s.depOf d).w = b := by rw [inv.wChar d, if_pos hdo]
    simp [killQ, wasTracked_bit b hb _ hwb, newTracked_zero b _ hn0]
  have hWN : ∀ d, ((finalizeDepMarkers e b s).depOf d).w = 0 ∧
      ((finalizeDepMarkers e b s).depOf d).n = 0 := by
    intro d
    rw [finalizeDepMarkers_eq, setEdeps_depOf]
    by_cases hdL : d ∈ s.edepsOf e
    · rw [ff1 d hdL]
      constructor
      · rw [finOne_w]
        by_cases h2 : d ∈ st.edepsOf e
        · rw [inv.wChar d, if_pos h2, clearBit_self]
        · rw [inv.wChar d, if_neg h2, clearBit_zero]
      · rw [finOne_n]
        rcases inv.nVals d with h2 | h2
        · rw [h2, clearBit_self]
        · rw [h2, clearBit_zero]
    · rw [ff2 d hdL]
      constructor
      · have h2 : d ∉ st.edepsOf e := by
          intro hx
          exact hdL (by rw [hL]; exact List.mem_append_left nw hx)
        rw [inv.wChar d, if_neg h2]
      · rcases inv.nVals d with h2 | h2
        · exfalso
          apply hdL
          rw [hL]
          rcases inv.nScan d h2 with h3 | h3
          · exact List.mem_append_left nw h3
          · exact List.mem_append_right _ h3
        · exact h2
  have hInv : InvAll (finalizeDepMarkers e b s) := by
    intro d e2
    by_cases he2 : e2 = e
    · subst he2
      rw [hedE, finalizeDepMarkers_eq, setEdeps_depOf]
      by_cases hdL : d ∈ s.edepsOf e2
      · rw [ff1 d hdL]
        by_cases hk : killQ (s.depOf d) b = true
        · rw [finOne_effects_kill e2 b _ hk]
          constructor
          · intro hmem
            exfalso
            have h3 := (List.mem_filter.1 hmem).2
            rw [hk] at h3
            simp at h3
          · intro hmem
            exact absurd hmem (not_mem_setDelete_self e2 _)
        · have hkF : killQ (s.depOf d) b = false := by
            simpa using hk
          rw [finOne_effects_keep e2 b _ hkF]
          have hEmem : e2 ∈ (s.depOf d).effects := by
            rw [inv.eMem d]
            have h3 := hdL
            rw [hL] at h3
            exact List.mem_append.1 h3
          constructor
          · intro _
            exact hEmem
          · intro _
            rw [List.mem_filter]
            exact ⟨hdL, by simp [hkF]⟩
      · rw [ff2 d hdL]
        constructor
        · intro hmem
          exact absurd (List.mem_filter.1 hmem).1 hdL
        · intro hmem
          exfalso
          apply hdL
          rw [hL]
          rcases (inv.eMem d).1 hmem with h3 | h3
          · exact List.mem_append_left nw h3
          · exact List.mem_append_right _ h3
    · rw [finalizeDepMarkers_eq, setEdeps_depOf, setEdeps_edepsOf_ne _ _ _ _ he2, ff4,
        inv.othersD e2 he2]
      by_cases hdL : d ∈ s.edepsOf e
      · rw [ff1 d hdL]
        by_cases hk : killQ (s.depOf d) b = true
        · rw [finOne_effects_kill e b _ hk]
          constructor
          · intro h2
            rw [mem_setDelete]
            exact ⟨(inv.othersE d e2 he2).2 ((hinv d e2).1 h2), he2⟩
          · intro h2
            exact (hinv d e2).2 ((inv.othersE d e2 he2).1 ((mem_setDelete e2 e _).1 h2).1)
        · have hkF : killQ (s.depOf d) b = false := by
            simpa using hk
          rw [finOne_effects_keep e b _ hkF]
          exact (hinv d e2).trans (inv.othersE d e2 he2).symm
      · rw [ff2 d hdL]
        exact (hinv d e2).trans (inv.othersE d e2 he2).symm
  have hNd : ((finalizeDepMarkers e b s).edepsOf e).Nodup := by
    rw [hedE]
    exact hLnd.filter _
  have hDrop : ∀ d, d ∈ st.edepsOf e → (s.depOf d).n = 0 →
      e ∉ ((finalizeDepMarkers e b s).depOf d).effects ∧
      d ∉ (finalizeDepMarkers e b s).edepsOf e := by
    intro d hdo hn0
    have hdL : d ∈ s.edepsOf e := by
      rw [hL]
      exact List.mem_append_left nw hdo
    have hk : killQ (s.depOf d) b = true := hkillT d hdo hn0
    constructor
    · rw [finalizeDepMarkers_eq, setEdeps_depOf, ff1 d hdL, finOne_effects_kill e b _ hk]
      exact not_mem_setDelete_self e _
    · rw [hedE]
      intro hmem
      have h3 := (List.mem_filter.1 hmem).2
      rw [hk] at h3
      simp at h3
  exact ⟨hWN, hInv, hNd, hedO, hDrop⟩

/-- Full characterization of one tracked run (`runPass`) from a clean state:
marker bits return to zero, the bidirectional membership invariant is
restored, `e.deps` stays duplicate-free, other effects are untouched, and any
previously-subscribed dep that the body did not read has `e` removed from it
and is removed from `e.deps`. -/
theorem runPass_spec (e b : Nat) (reads : List DepId) (st : RSt) (hb : 0 < b)
    (hz : ∀ d, (st.depOf d).w = 0 ∧ (st.depOf d).n = 0)
    (hnd : (st.edepsOf e).Nodup) (hinv : InvAll st) :
    (∀ d, ((runPass e b reads st).depOf d).w = 0 ∧
      ((runPass e b reads st).depOf d).n = 0) ∧
    InvAll (runPass e b reads st) ∧
    ((runPass e b reads st).edepsOf e).Nodup ∧
    (∀ e2, e2 ≠ e → (runPass e b reads st).edepsOf e2 = st.edepsOf e2) ∧
    (∀ d, d ∈ st.edepsOf e → d ∉ reads →
      e ∉ ((runPass e b reads st).depOf d).effects ∧
      d ∉ (runPass e b reads st).edepsOf e) := by
  obtain ⟨nw, inv⟩ := trackInv_fold e b st (reads) (initDepMarkers e b st) [] hb
    (trackInv_init e b st hb hz hinv)
  have hrp : runPass e b reads st =
      finalizeDepMarkers e b
        (reads.foldl (fun s2 d => trackEffects e b false d s2) (initDepMarkers e b st)) := rfl
  obtain ⟨f1, f2, f3, f4, f5⟩ := finalize_spec e b st _ nw hb hnd hinv inv
  rw [hrp]
  refine ⟨f1, f2, f3, f4, ?_⟩
  intro d hdo hnr
  apply f5 d hdo
  rw [trackFold_frame e b reads _ d hnr, initDepMarkers, initFold_n, (hz d).2]

/-! ## `cleanupEffect` and the full-cleanup tracking branch -/

theorem cleanupFold_spec (e : Nat) (l : List DepId) (hnd : l.Nodup) (s : RSt) :
    (∀ d, d ∈ l → (l.foldl (cleanupStep e) s).depOf d =
      { s.depOf d with effects := setDelete e (s.depOf d).effects }) ∧
    (∀ d, d ∉ l → (l.foldl (cleanupStep e) s).depOf d = s.depOf d) ∧
    (l.foldl (cleanupStep e) s).edepsOf = s.edepsOf := by
  induction l generalizing s with
  | nil =>
    exact ⟨fun d hd => absurd hd (List.not_mem_nil d), fun d _ => rfl, rfl⟩
  | cons a t ih =>
    obtain ⟨hat, hndt⟩ := List.nodup_cons.1 hnd
    simp only [List.foldl_cons]
    obtain ⟨ih1, ih2, ih3⟩ := ih hndt (cleanupStep e s a)
    have hstep_self : (cleanupStep e s a).depOf a =
        { s.depOf a with effects := setDelete e (s.depOf a).effects } := by
      simp only [cleanupStep, updDep_depOf_self]
    have hstep_ne : ∀ d, d ≠ a → (cleanupStep e s a).depOf d = s.depOf d := by
      intro d h
      simp only [cleanupStep, updDep_depOf_ne _ _ _ _ h]
    refine ⟨?_, ?_, ?_⟩
    · intro d hd
      rcases List.mem_cons.1 hd with rfl | hd2
      · rw [ih2 d hat, hstep_self]
      · have hne : d ≠ a := fun hx => hat (hx ▸ hd2)
        rw [ih1 d hd2, hstep_ne d hne]
    · intro d hd
      have hne : d ≠ a := fun hx => hd (hx ▸ List.mem_cons_self a t)
      have hdt : d ∉ t := fun hx => hd (List.mem_cons_of_mem a hx)
      rw [ih2 d hdt, hstep_ne d hne]
    · rw [ih3]
      rfl

theorem cleanupEffect_invAll (e : Nat) (st : RSt) (hnd : (st.edepsOf e).Nodup)
    (hinv : InvAll st) : InvAll (cleanupEffect e st) := by
  obtain ⟨c1, c2, c3⟩ := cleanupFold_spec e (st.edepsOf e) hnd st
  have hced : cleanupEffect e st =
      setEdeps ((st.edepsOf e).foldl (cleanupStep e) st) e [] := rfl
  intro d e2
  rw [hced]
  by_cases he2 : e2 = e
  · subst he2
    rw [setEdeps_edepsOf_self, setEdeps_depOf]
    constructor
    · intro h
      exact absurd h (List.not_mem_nil d)
    · intro hmem
      exfalso
      by_cases hdl : d ∈ st.edepsOf e2
      · have hp : (((st.edepsOf e2).foldl (cleanupStep e2) st).depOf d).effects =
            setDelete e2 (st.depOf d).effects := by
          rw [c1 d hdl]
        rw [hp] at hmem
        exact not_mem_setDelete_self e2 _ hmem
      · rw [c2 d hdl] at hmem
        exact hdl ((hinv d e2).2 hmem)
  · rw [setEdeps_edepsOf_ne _ _ _ _ he2, c3, setEdeps_depOf]
    by_cases hdl : d ∈ st.edepsOf e
    · have hp : (((st.edepsOf e).foldl (cleanupStep e) st).depOf d).effects =
          setDelete e (st.depOf d).effects := by
        rw [c1 d hdl]
      rw [hp]
      constructor
      · intro h2
        rw [mem_setDelete]
        exact ⟨(hinv d e2).1 h2, he2⟩
      · intro h2
        exact (hinv d e2).2 ((mem_setDelete e2 e _).1 h2).1
    · rw [c2 d hdl]
      exact hinv d e2

theorem trackEffects_deep_invAll (e b : Nat) (d : DepId) (st : RSt) (hinv : InvAll st) :
    InvAll (trackEffects e b true d st) := by
  by_cases hmem : e ∈ (st.depOf d).effects
  · have heq : trackEffects e b true d st = st := by
      simp [trackEffects, hmem]
    rw [heq]
    exact hinv
  · have heq : trackEffects e b true d st =
        setEdeps (updDep st d { st.depOf d with effects := setAdd e (st.depOf d).effects }) e
          (st.edepsOf e ++ [d]) := by
      simp [trackEffects, hmem]
    rw [heq]
    intro d2 e2
    by_cases he2 : e2 = e
    · subst he2
      rw [setEdeps_edepsOf_self, setEdeps_depOf]
      by_cases hd2 : d2 = d
      · subst hd2
        rw [updDep_depOf_self]
        constructor
        · intro _
          exact mem_setAdd_self e2 _
        · intro _
          exact List.mem_append_right _ (List.mem_singleton.2 rfl)
      · rw [updDep_depOf_ne _ _ _ _ hd2]
        constructor
        · intro h2
          rcases List.mem_append.1 h2 with h3 | h3
          · exact (hinv d2 e2).1 h3
          · rw [List.mem_singleton] at h3
            exact absurd h3 hd2
        · intro h2
          exact List.mem_append_left _ ((hinv d2 e2).2 h2)
    · rw [setEdeps_edepsOf_ne _ _ _ _ he2, setEdeps_depOf]
      by_cases hd2 : d2 = d
      · subst hd2
        rw [updDep_depOf_self]
        constructor
        · intro h2
          have h3 : e2 ∈ setAdd e (st.depOf d2).effects :=
            (mem_setAdd e2 e _).2 (Or.inr ((hinv d2 e2).1 h2))
          exact h3
        · intro h2
          have h3 : e2 ∈ setAdd e (st.depOf d2).effects := h2
          rcases (mem_setAdd e2 e _).1 h3 with h4 | h4
          · exact absurd h4 he2
          · exact (hinv d2 e2).2 h4
      · rw [updDep_depOf_ne _ _ _ _ hd2]
        exact hinv d2 e2

theorem triggerEffectsFired_subset (l : List EffectId) (isC aR : EffectId → Bool)
    (act : Option EffectId) (x : EffectId)
    (h : x ∈ triggerEffectsFired l isC aR act) : x ∈ l := by
  rcases List.mem_append.1 h with h2 | h2
  · exact (List.mem_filter.1 h2).1
  · exact (List.mem_filter.1 h2).1

/-! ## Claim C1: incremental re-tracking reconciliation -/

/-- Claim C1: starting from an idle state (marker bits clear, bidirectional
invariant holding), after effect `e`'s tracked run completes, every dep `d0`
that `e` subscribed to in the previous pass (`d0 ∈ e.deps` on entry) but did
not read in this pass is stripped of `e` on both sides, and a subsequent
trigger over that dep no longer fires `e`. -/
theorem stale_dep_detached_after_run (e b : Nat) (reads : List DepId) (st : RSt)
    (d0 : DepId) (isC aR : EffectId → Bool) (act : Option EffectId) (hb : 0 < b)
    (hz : ∀ d, (st.depOf d).w = 0 ∧ (st.depOf d).n = 0)
    (hnd : (st.edepsOf e).Nodup) (hinv : InvAll st)
    (hmem : d0 ∈ st.edepsOf e) (hnr : d0 ∉ reads) :
    e ∉ ((runPass e b reads st).depOf d0).effects ∧
    d0 ∉ (runPass e b reads st).edepsOf e ∧
    e ∉ triggerEffectsFired ((runPass e b reads st).depOf d0).effects isC aR act := by
  obtain ⟨_, _, _, _, f5⟩ := runPass_spec e b reads st hb hz hnd hinv
  obtain ⟨h1, h2⟩ := f5 d0 hmem hnr
  refine ⟨h1, h2, ?_⟩
  intro hmem2
  exact h1 (triggerEffectsFired_subset _ _ _ _ _ hmem2)

/-- Witness for C1: effect 0 subscribed to dep 0 in the previous pass and reads
nothing in the new pass; afterwards dep 0 no longer holds effect 0, effect 0's
deps list no longer holds dep 0, and a trigger of dep 0 fires nothing. -/
theorem stale_dep_detached_after_run_witness :
    0 ∉ ((runPass 0 2 [] oneSt).depOf 0).effects ∧
    0 ∉ (runPass 0 2 [] oneSt).edepsOf 0 ∧
    0 ∉ triggerEffectsFired ((runPass 0 2 [] oneSt).depOf 0).effects
        (fun _ => false) (fun _ => false) none :=
  stale_dep_detached_after_run 0 2 [] oneSt 0 (fun _ => false) (fun _ => false) none
    (by decide)
    (by intro d; by_cases h : d = 0 <;> simp [oneSt, h])
    (by decide)
    (by intro d e; by_cases hd : d = 0 <;> by_cases he : e = 0 <;>
      simp [oneSt, InvAll, hd, he])
    (by decide) (by decide)

/-! ## Claim C2: bidirectional membership invariant -/

/-- Claim C2: from any idle state satisfying the bidirectional membership
invariant (with marker bits clear and a duplicate-free deps array), the
invariant `e ∈ d.effects ⇔ d ∈ e.deps` is restored when control returns to
idle by each of: a full tracked run (`initDepMarkers` + `trackEffects` calls +
`finalizeDepMarkers`), `cleanupEffect` (the `stop()` path), and a
full-cleanup-mode `trackEffects` step; marker bits are again zero after the
run. -/
theorem dep_effect_links_bidirectional (e b : Nat) (reads : List DepId) (dAny : DepId)
    (st : RSt) (hb : 0 < b)
    (hz : ∀ d, (st.depOf d).w = 0 ∧ (st.depOf d).n = 0)
    (hnd : (st.edepsOf e).Nodup) (hinv : InvAll st) :
    InvAll (runPass e b reads st) ∧
    (∀ d, ((runPass e b reads st).depOf d).w = 0 ∧
      ((runPass e b reads st).depOf d).n = 0) ∧
    InvAll (cleanupEffect e st) ∧
    InvAll (trackEffects e b true dAny st) := by
  obtain ⟨f1, f2, _, _, _⟩ := runPass_spec e b reads st hb hz hnd hinv
  exact ⟨f2, f1, cleanupEffect_invAll e st hnd hinv,
    trackEffects_deep_invAll e b dAny st hinv⟩

/-- Witness for C2 at a concrete state: effect 0 subscribed to dep 0, then
running a pass that reads the fresh dep 3 keeps the invariant, as do the stop
path and the deep tracking step. -/
theorem dep_effect_links_bidirectional_witness :
    InvAll (runPass 0 2 [3] oneSt) ∧
    ((runPass 0 2 [3] oneSt).depOf 3).w = 0 ∧
    InvAll (cleanupEffect 0 oneSt) ∧
    InvAll (trackEffects 0 2 true 1 oneSt) := by
  have h := dep_effect_links_bidirectional 0 2 [3] 1 oneSt (by decide)
    (by intro d; by_cases hd : d = 0 <;> simp [oneSt, hd])
    (by decide)
    (by intro d e; by_cases hd : d = 0 <;> by_cases he : e = 0 <;>
      simp [oneSt, InvAll, hd, he])
  exact ⟨h.1, (h.2.1 3).1, h.2.2.1, h.2.2.2⟩

/-! ## Claim C7: array length-truncation trigger rule -/

theorem lengthBranch_foldl (m : List (TKey × Dep)) (L : Nat) (acc : List (Option Dep)) :
    m.foldl
      (fun acc2 p =>
        if (p.1 == TKey.length) || keyGEnum p.1 L then acc2 ++ [some p.2] else acc2)
      acc
    = acc ++ (m.filter (fun p => (p.1 == TKey.length) || keyGEnum p.1 L)).map
        (fun p => some p.2) := by
  induction m generalizing acc with
  | nil => simp
  | cons p t ih =>
    simp only [List.foldl_cons]
    by_cases h : ((p.1 == TKey.length) || keyGEnum p.1 L) = true
    · have hfc : List.filter (fun q => q.1 == TKey.length || keyGEnum q.1 L) (p :: t)
          = p :: List.filter (fun q => q.1 == TKey.length || keyGEnum q.1 L) t :=
        List.filter_cons_of_pos (by simpa using h)
      rw [if_pos h, ih, hfc, List.map_cons, List.append_assoc, List.singleton_append]
    · have hfc : List.filter (fun q => q.1 == TKey.length || keyGEnum q.1 L) (p :: t)
          = List.filter (fun q => q.1 == TKey.length || keyGEnum q.1 L) t :=
        List.filter_cons_of_neg (by simpa using h)
      rw [if_neg (by simpa using h), ih, hfc]

theorem collectTriggerDeps_length (isMp : Bool) (m : List (TKey × Dep)) (ty : TrigType)
    (L : Nat) (hty : ty ≠ TrigType.clear) :
    collectTriggerDeps true isMp m ty (some TKey.length) L =
      (m.filter (fun p => (p.1 == TKey.length) || keyGEnum p.1 L)).map
        (fun p => some p.2) := by
  unfold collectTriggerDeps
  rw [if_neg hty, if_pos ⟨rfl, rfl⟩, lengthBranch_foldl m L [], List.nil_append]

/-- Counterexample to C7 as stated: on an array target whose depsMap holds one
dep registered under the numeric string key `'1.5'` (ToNumber value 3/2),
setting the length to 1 collects that dep — the source coerces the string in
`key >= newValue`, and `'1.5' >= 1` is true — although the key is neither
`"length"` nor an integer index `≥ 1`.  By the claim the collected list should
be empty here, so the collected deps are not "exactly" the `length` dep plus
the qualifying integer-index deps. -/
theorem length_trigger_numeric_string_counterexample :
    collectTriggerDeps true false ceM TrigType.set (some TKey.length) 1 =
      [some ⟨[13], 0, 0⟩] := by
  decide

/-- Claim C7, amended: when `trigger` runs with key `"length"` on an array
target, the deps collected for firing are exactly those registered under a key
whose `ToNumber` coercion compares `≥` the new length, plus the dep under
`"length"` itself: every dep under an integer index key `≥` the new length,
and also any dep under a non-index numeric string key whose numeric value is
`≥` the new length; a dep registered only under a smaller integer index is not
collected. -/
theorem length_trigger_collects_coerced (isMp : Bool) (ty : TrigType)
    (m : List (TKey × Dep)) (L : Nat) (d : Dep) (hty : ty ≠ TrigType.clear) :
    (some d ∈ collectTriggerDeps true isMp m ty (some TKey.length) L ↔
      ∃ k, (k, d) ∈ m ∧
        (k = TKey.length ∨ (∃ n, k = TKey.index n ∧ L ≤ n) ∨
          (∃ v, k = TKey.numStr v ∧ (L : ℚ) ≤ v))) ∧
    (∀ n, (TKey.index n, d) ∈ m → n < L →
      (∀ k2, (k2, d) ∈ m → k2 = TKey.index n) →
      some d ∉ collectTriggerDeps true isMp m ty (some TKey.length) L) := by
  rw [collectTriggerDeps_length isMp m ty L hty]
  constructor
  · constructor
    · intro h
      rw [List.mem_map] at h
      obtain ⟨⟨k, dp⟩, hp, hpe⟩ := h
      rw [List.mem_filter] at hp
      have hd : dp = d := Option.some.inj hpe
      subst hd
      refine ⟨k, hp.1, ?_⟩
      have hcond := hp.2
      rw [Bool.or_eq_true] at hcond
      rcases hcond with h2 | h2
      · left
        simpa using h2
      · right
        cases k with
        | length => simp [keyGEnum] at h2
        | index n => exact Or.inl ⟨n, rfl, by simpa [keyGEnum] using h2⟩
        | numStr v => exact Or.inr ⟨v, rfl, by simpa [keyGEnum] using h2⟩
        | named s => simp [keyGEnum] at h2
        | iterate => simp [keyGEnum] at h2
        | mapKeyIterate => simp [keyGEnum] at h2
    · rintro ⟨k, hkm, hcond⟩
      rw [List.mem_map]
      refine ⟨(k, d), ?_, rfl⟩
      rw [List.mem_filter]
      refine ⟨hkm, ?_⟩
      rcases hcond with rfl | ⟨n, rfl, hn⟩ | ⟨v, rfl, hv⟩
      · simp
      · simp [keyGEnum, hn]
      · simp [keyGEnum, hv]
  · intro n hnm hlt huniq hmem
    rw [List.mem_map] at hmem
    obtain ⟨⟨k, dp⟩, hp, hpe⟩ := hmem
    rw [List.mem_filter] at hp
    have hd : dp = d := Option.some.inj hpe
    subst hd
    have hk := huniq k hp.1
    subst hk
    have hcond := hp.2
    rw [Bool.or_eq_true] at hcond
    rcases hcond with h2 | h2
    · simp at h2
    · have hle : L ≤ n := by simpa [keyGEnum] using h2
      omega

/-- Witness for the amended C7: with deps registered under `length`, index 0,
index 2 and the numeric string `'1.5'`, setting the array length to 1 collects
the index-2 dep and the `'1.5'` dep, and does not collect the index-0 dep. -/
theorem length_trigger_collects_coerced_witness :
    some (⟨[12], 0, 0⟩ : Dep) ∈
      collectTriggerDeps true false exM TrigType.set (some TKey.length) 1 ∧
    some (⟨[13], 0, 0⟩ : Dep) ∈
      collectTriggerDeps true false exM TrigType.set (some TKey.length) 1 ∧
    some (⟨[11], 0, 0⟩ : Dep) ∉
      collectTriggerDeps true false exM TrigType.set (some TKey.length) 1 :=
  ⟨(length_trigger_collects_coerced false TrigType.set exM 1 ⟨[12], 0, 0⟩
        (by decide)).1.2
      ⟨TKey.index 2, by decide, Or.inr (Or.inl ⟨2, rfl, by decide⟩)⟩,
   (length_trigger_collects_coerced false TrigType.set exM 1 ⟨[13], 0, 0⟩
        (by decide)).1.2
      ⟨TKey.numStr (mkRat 3 2), by decide, Or.inr (Or.inr ⟨mkRat 3 2, rfl, by decide⟩)⟩,
   (length_trigger_collects_coerced false TrigType.set exM 1 ⟨[11], 0, 0⟩
        (by decide)).2
      0 (by decide) (by decide)
      (by
        intro k2 hk2
        simp only [exM, List.mem_cons, List.not_mem_nil, or_false, Prod.mk.injEq] at hk2
        rcases hk2 with ⟨h1, h2⟩ | ⟨h1, h2⟩ | ⟨h1, h2⟩ | ⟨h1, h2⟩
        · exact absurd h2 (by decide)
        · rw [h1]
        · exact absurd h2 (by decide)
        · exact absurd h2 (by decide))⟩

end Vue
